import Mathlib

/-!
Shallow embedding of `codes/data/augment.py` (RandSaliencyMix) and proofs of the
spec claims about it.

Conventions:
  * numpy / torch floating point arithmetic is modelled over `ℚ` (exact);
  * a saliency map is a function `ℕ → ℕ → ℚ` together with its dimensions
    `(h, w)`; an image batch is `ℕ → ℕ → ℕ → ℕ → ℚ` (item, channel, row, col);
    a label batch is `ℕ → ℕ → ℚ` (item, class);
  * sources of randomness (`np.random.beta`, `np.random.permutation`,
    `np.random.randint`, `np.random.choice`) are injected as explicit
    parameters: the Beta draw only enters through the already-truncated cut
    sizes `cut_h = int(h * sqrt(1 - lam))`, `cut_w = int(w * sqrt(1 - lam))`,
    so those two natural numbers are the parameters;
  * in-place tensor mutation is modelled by explicit state passing.
-/

set_option autoImplicit false

namespace RandSaliencyMix

/-- `np.clip(x, lo, hi)` on integers. -/
def clip (x lo hi : ℤ) : ℤ := max lo (min x hi)

/-- `np.argmax` over a flattened array of length `n`: the first index
attaining the maximum (row-major first occurrence). -/
def argmaxFlat (g : ℕ → ℚ) (n : ℕ) : ℕ :=
  (List.range n).foldl (fun best i => if g best < g i then i else best) 0

/-- A bounding box `(bbr1, bbc1, bbr2, bbc2)` as returned by the region
selectors.  Fields are integers exactly as in the source (results of
`int(np.clip(...))` or of unclipped integer arithmetic). -/
structure BBox where
  r1 : ℤ
  c1 : ℤ
  r2 : ℤ
  c2 : ℤ
deriving DecidableEq

/-- `_pick_most_salient_pixel(saliency_map, lam)` (augment.py lines 9-23).
`h, w` are `saliency_map.shape`; `cut_h, cut_w` are the computed cut sizes
`int(h * sqrt(1-lam))`, `int(w * sqrt(1-lam))`.  The anchor is the row-major
argmax of the map; every edge is clipped independently into `[0, h]` resp.
`[0, w]`. -/
def pick_most_salient_pixel (sal : ℕ → ℕ → ℚ) (h w : ℕ) (cut_h cut_w : ℕ) : BBox :=
  let idx := argmaxFlat (fun i => sal (i / w) (i % w)) (h * w)
  let row : ℤ := (idx / w : ℕ)
  let col : ℤ := (idx % w : ℕ)
  { r1 := clip (row - (cut_h / 2 : ℕ)) 0 h
    c1 := clip (col - (cut_w / 2 : ℕ)) 0 w
    r2 := clip (row + (cut_h / 2 : ℕ)) 0 h
    c2 := clip (col + (cut_w / 2 : ℕ)) 0 w }

/-- The post-clip lambda correction `lam = 1 - copy_area / total_area`, the
expression every `__call__` recomputes right before blending labels
(e.g. augment.py lines 102-104).  `H, W` are `images.shape[-2]`,
`images.shape[-1]`, so `total_area = W * H`. -/
def adjust_lambda (b : BBox) (H W : ℕ) : ℚ :=
  1 - (((b.r2 - b.r1) * (b.c2 - b.c1) : ℤ) : ℚ) / ((W * H : ℕ) : ℚ)

/-- The loop body shared verbatim by `SaliencyMixFixed.__call__`
(augment.py lines 98-109) and `ErrorMix.__call__` (lines 142-153):
mix paste item `paste` with copy item `copy`.  Returns the new image of the
paste item (all channels) and its new label vector.  Reads go to the
*original* `images` / `labels` arrays because both call sites write into
freshly zero-initialised `new_images` / `new_labels`. -/
def mix_item (images : ℕ → ℕ → ℕ → ℕ → ℚ) (labels : ℕ → ℕ → ℚ)
    (sal_maps : ℕ → ℕ → ℕ → ℚ) (salH salW H W : ℕ)
    (paste copy cut_h cut_w : ℕ) : (ℕ → ℕ → ℕ → ℚ) × (ℕ → ℚ) :=
  let b := pick_most_salient_pixel (sal_maps copy) salH salW cut_h cut_w
  let lam := adjust_lambda b H W
  (fun ch r c =>
      if b.r1 ≤ (r : ℤ) ∧ (r : ℤ) < b.r2 ∧ b.c1 ≤ (c : ℤ) ∧ (c : ℤ) < b.c2 then
        images copy ch r c
      else images paste ch r c,
   fun k => labels paste k * lam + labels copy k * (1 - lam))

/-- `SaliencyMixFixed.__call__` (augment.py lines 88-111).  `copy_indices`
is the sampled `np.random.permutation(num_items)`; `cuts p` are the cut
sizes derived from the Beta draw of iteration `p`.  Returns
`(new_images, new_labels)`. -/
def SaliencyMixFixed_call (images : ℕ → ℕ → ℕ → ℕ → ℚ) (labels : ℕ → ℕ → ℚ)
    (sal_maps : ℕ → ℕ → ℕ → ℚ) (salH salW H W : ℕ)
    (copy_indices : ℕ → ℕ) (cuts : ℕ → ℕ × ℕ) :
    (ℕ → ℕ → ℕ → ℕ → ℚ) × (ℕ → ℕ → ℚ) :=
  (fun p => (mix_item images labels sal_maps salH salW H W
      p (copy_indices p) (cuts p).1 (cuts p).2).1,
   fun p => (mix_item images labels sal_maps salH salW H W
      p (copy_indices p) (cuts p).1 (cuts p).2).2)

/-- The partner-selection distribution of `ErrorMix.__call__`
(augment.py lines 134-140): `prob = 1 - error_matrix[labels_idx[paste], labels_idx]`,
then `prob += eps`, then `prob[paste_idx] = 0`, then `prob /= prob.sum()`.
`labels_idx j` is `labels.argmax(1)` of item `j`; `N` is the batch size. -/
def partner_prob (error_matrix : ℕ → ℕ → ℚ) (labels_idx : ℕ → ℕ)
    (paste_idx : ℕ) (eps : ℚ) (N : ℕ) : ℕ → ℚ :=
  let pre := fun j =>
    if j = paste_idx then 0
    else (1 - error_matrix (labels_idx paste_idx) (labels_idx j)) + eps
  let s := ∑ j ∈ Finset.range N, pre j
  fun j => pre j / s

/-- `ErrorMix.__call__` (augment.py lines 126-155).  The loop body is the
same `mix_item` as in `SaliencyMixFixed`; the copy index of iteration `p` is
drawn by `np.random.choice(num_items, p=partner_prob ... p ...)` and is
injected here as `picks p` (support constraints are hypotheses of the
theorems that need them).  `C` is `num_classes`. -/
def ErrorMix_call (images : ℕ → ℕ → ℕ → ℕ → ℚ) (labels : ℕ → ℕ → ℚ)
    (sal_maps : ℕ → ℕ → ℕ → ℚ) (salH salW H W : ℕ)
    (picks : ℕ → ℕ) (cuts : ℕ → ℕ × ℕ) :
    (ℕ → ℕ → ℕ → ℕ → ℚ) × (ℕ → ℕ → ℚ) :=
  (fun p => (mix_item images labels sal_maps salH salW H W
      p (picks p) (cuts p).1 (cuts p).2).1,
   fun p => (mix_item images labels sal_maps salH salW H W
      p (picks p) (cuts p).1 (cuts p).2).2)

/-- The per-item minimum `outputs_arr.min(1)` (augment.py line 161) of a row
of `C` class scores, `C ≥ 1`. -/
def rowMin (out : ℕ → ℚ) (C : ℕ) : ℚ :=
  ((List.range C).map out).foldl min (out 0)

/-- The per-item normalization of `ErrorMix.update_error_matrix`
(augment.py lines 160-162): subtract the per-item minimum, divide by the
per-item sum of the shifted scores. -/
def normalize_outputs (out : ℕ → ℚ) (C : ℕ) : ℕ → ℚ :=
  let m := rowMin out C
  let s := ∑ k ∈ Finset.range C, (out k - m)
  fun k => (out k - m) / s

/-- One iteration of the update loop of `ErrorMix.update_error_matrix`
(augment.py lines 166-171): replace row `labels[i].argmax()` of the matrix
by `w * diff[i, :] + (1 - w) * row`, every other row untouched.
`diff i b = |normalized_outputs[i, b] - labels[i, b]|` is precomputed by the
caller (line 163), `w` is `exp_weight`. -/
def update_error_matrix_step (w : ℚ) (diff : ℕ → ℕ → ℚ) (labels : ℕ → ℕ → ℚ)
    (C : ℕ) (M : ℕ → ℕ → ℚ) (i : ℕ) : ℕ → ℕ → ℚ :=
  let li := argmaxFlat (labels i) C
  fun a b => if a = li then w * diff i b + (1 - w) * M a b else M a b

/-- `ErrorMix.update_error_matrix(outputs, labels)` (augment.py lines
157-171): normalize the outputs once, form the elementwise absolute
discrepancy, then fold the per-item row update over the `N` items. -/
def update_error_matrix (w : ℚ) (outputs labels : ℕ → ℕ → ℚ) (C N : ℕ)
    (M : ℕ → ℕ → ℚ) : ℕ → ℕ → ℚ :=
  let diff := fun i b => |normalize_outputs (outputs i) C b - labels i b|
  (List.range N).foldl (update_error_matrix_step w diff labels C) M

/-- `SaliencyMix._saliency_bbox(img, lam)` (augment.py lines 52-78) with the
externally computed OpenCV saliency map injected as `salMap` (its computation
is out of scope per the spec).  In the source `W = size[1]` and `H = size[2]`
and the map produced from the `(1, 2, 0)`-transposed image has shape
`(W, H)` in those names; the anchor is the row-major argmax, rows are clipped
into `[0, W]` with `cut_w = int(W * cut_rat)` and columns into `[0, H]` with
`cut_h = int(H * cut_rat)`. -/
def saliency_bbox_sm (salMap : ℕ → ℕ → ℚ) (Wd Hd : ℕ) (cut_w cut_h : ℕ) : BBox :=
  let idx := argmaxFlat (fun i => salMap (i / Hd) (i % Hd)) (Wd * Hd)
  let x : ℤ := (idx / Hd : ℕ)
  let y : ℤ := (idx % Hd : ℕ)
  { r1 := clip (x - (cut_w / 2 : ℕ)) 0 Wd
    c1 := clip (y - (cut_h / 2 : ℕ)) 0 Hd
    r2 := clip (x + (cut_w / 2 : ℕ)) 0 Wd
    c2 := clip (y + (cut_h / 2 : ℕ)) 0 Hd }

/-- `SaliencyMix.__call__` (augment.py lines 34-50): one shared box computed
from the saliency map of image `rand_index[0]`, applied across the whole
batch; the label blend coefficient is recomputed from that box.
`Wd = size[1]`, `Hd = size[2]` are the spatial dims;
`total_area = images.shape[-1] * images.shape[-2] = Hd * Wd`.
`rand_index` is the sampled `torch.randperm`.  Returns
`(new images, new labels)`; the image write is in place but its right-hand
side `images[rand_index, ...]` is an advanced-indexing copy of the pre-call
batch, so reads below refer to the original `images`. -/
def SaliencyMix_call (images : ℕ → ℕ → ℕ → ℕ → ℚ) (labels : ℕ → ℕ → ℚ)
    (salMap : ℕ → ℕ → ℚ) (Wd Hd : ℕ) (rand_index : ℕ → ℕ)
    (cut_w cut_h : ℕ) : (ℕ → ℕ → ℕ → ℕ → ℚ) × (ℕ → ℕ → ℚ) :=
  let b := saliency_bbox_sm salMap Wd Hd cut_w cut_h
  let lam := 1 - (((b.r2 - b.r1) * (b.c2 - b.c1) : ℤ) : ℚ) / ((Hd * Wd : ℕ) : ℚ)
  (fun j ch r c =>
      if b.r1 ≤ (r : ℤ) ∧ (r : ℤ) < b.r2 ∧ b.c1 ≤ (c : ℤ) ∧ (c : ℤ) < b.c2 then
        images (rand_index j) ch r c
      else images j ch r c,
   fun j k => labels j k * lam + labels (rand_index j) k * (1 - lam))

/-- `NoiseSaliencyMixFixed.__call__` (augment.py lines 364-393), embedded
exactly as written: the `for paste_idx in range(num_items)` loop body consists
only of the three assignments to `copy_idx`, `lam` and the box (lines
371-373); the patch construction, image write, lambda adjustment and label
blend (lines 376-391) are indented at function level and run once, with the
loop variables holding their values from the final iteration
`paste_idx = num_items - 1` (`N ≥ 1` assumed, as a 0-item batch raises).
`noise` is the injected Gaussian sample added by
`random_noise(patch, mode="gaussian", clip=False)`; `nc` is the channel
count, so `patch.numel() = nc * box_height * box_width`. -/
def NoiseSaliencyMixFixed_call (images : ℕ → ℕ → ℕ → ℕ → ℚ)
    (labels : ℕ → ℕ → ℚ) (sal_maps : ℕ → ℕ → ℕ → ℚ)
    (salH salW H W nc N : ℕ) (copy_idxs : ℕ → ℕ) (cuts : ℕ → ℕ × ℕ)
    (noise : ℕ → ℕ → ℕ → ℚ) : (ℕ → ℕ → ℕ → ℕ → ℚ) × (ℕ → ℕ → ℚ) :=
  let paste_idx := N - 1
  let copy_idx := copy_idxs (N - 1)
  let b := pick_most_salient_pixel (sal_maps copy_idx) salH salW
      (cuts (N - 1)).1 (cuts (N - 1)).2
  let numel := nc * ((b.r2 - b.r1) * (b.c2 - b.c1)).toNat
  let lam := adjust_lambda b H W
  (fun j ch r c =>
      if j = paste_idx ∧ b.r1 ≤ (r : ℤ) ∧ (r : ℤ) < b.r2 ∧
          b.c1 ≤ (c : ℤ) ∧ (c : ℤ) < b.c2 then
        (if numel ≠ 0 then images copy_idx ch r c + noise ch r c
         else images copy_idx ch r c)
      else images j ch r c,
   fun j k =>
      if j = paste_idx then labels paste_idx k * lam + labels copy_idx k * (1 - lam)
      else labels j k)

/-- Start index of the trailing zeroed band `a[-cut // 2 :]` of
`randsal_bbox` (augment.py lines 433, 435).  In Python `-cut // 2` is
`-⌈cut/2⌉`, and a slice `a[m:]` with `m ≤ 0` starts at `max(0, n + m)`;
in particular for `cut = 0` the slice `a[-0:] = a[0:]` spans the whole
axis, so the start index is 0. -/
def lastZeroStart (n cut : ℕ) : ℕ := if cut = 0 then 0 else n - (cut + 1) / 2

/-- The in-place border zeroing of `randsal_bbox` (augment.py lines 432-435):
rows `[0, cut_w // 2)` and `[-cut_w // 2 :)` and columns `[0, cut_h // 2)` and
`[-cut_h // 2 :)` are set to zero (`cut_w` goes with rows = axis of length
`size[0] = h`, `cut_h` with columns, exactly as in the source). -/
def border_zero (sal : ℕ → ℕ → ℚ) (h w cut_w cut_h : ℕ) : ℕ → ℕ → ℚ :=
  fun r c =>
    if r < cut_w / 2 ∨ lastZeroStart h cut_w ≤ r ∨
        c < cut_h / 2 ∨ lastZeroStart w cut_h ≤ c then 0
    else sal r c

/-- `saliency_map_1d = np.array(saliency_map).flatten()` (line 436):
row-major flattening of an `h × w` map, 0 beyond the array. -/
def flat1d (sal : ℕ → ℕ → ℚ) (h w : ℕ) : ℕ → ℚ :=
  fun i => if i < h * w then sal (i / w) (i % w) else 0

/-- The sampling distribution built by `randsal_bbox` (augment.py lines
438-449) over the `hw` flattened positions.  `prob` starts all zero; for the
copy role (`val = 0`) nonzero positions get `s / s_sum`, for the paste role
(`val = 1`) they get `(255 - s) / (255 - s_nonzero).sum()`; any other `val`
(the `-1` sentinel threaded from a failed first call) assigns nothing.
A zero `s_sum` leaves `prob` all zero.  Division by zero (paste role with all
surviving values equal to 255) yields 0 here where numpy yields `nan`; either
way `prob.sum() == 1` fails and the caller takes the sentinel branch. -/
def randsal_prob (m1d : ℕ → ℚ) (hw : ℕ) (val : ℤ) (i : ℕ) : ℚ :=
  let s_sum := ∑ j ∈ Finset.range hw, m1d j
  let t := ∑ j ∈ Finset.range hw, (if m1d j = 0 then 0 else 255 - m1d j)
  if val = 0 then
    if s_sum = 0 then 0 else if m1d i = 0 then 0 else m1d i / s_sum
  else if val = 1 then
    if s_sum = 0 then 0 else if m1d i = 0 then 0 else (255 - m1d i) / t
  else 0

/-- The five-tuple returned by `randsal_bbox`: an (unclipped) box and the
role/sentinel flag `val`. -/
structure RBox where
  x1 : ℤ
  y1 : ℤ
  x2 : ℤ
  y2 : ℤ
  val : ℤ
deriving DecidableEq

/-- The sentinel `(-1, -1, -1, -1, -1)` of `randsal_bbox` (line 463). -/
def rboxFail : RBox := { x1 := -1, y1 := -1, x2 := -1, y2 := -1, val := -1 }

/-- `randsalMix.randsal_bbox(saliency_map, lam, val)` (augment.py lines
426-463).  `h, w = saliency_map.size()`; `cut_w = int(h * cut_rat)` and
`cut_h = int(w * cut_rat)` are injected (`size[0] = h` rows, `size[1] = w`
columns).  The map is border-zeroed *in place*, so the mutated map is
returned alongside the result.  `pick` is the index drawn by
`np.random.choice(len(saliency_map_1d), p=prob)`; it is only consulted when
`prob.sum() == 1`, and theorems that need it in the support of `prob` take
that as a hypothesis.  If `prob.sum() != 1` the sentinel is returned. -/
def randsal_bbox (sal : ℕ → ℕ → ℚ) (h w : ℕ) (cut_w cut_h : ℕ) (val : ℤ)
    (pick : ℕ) : (ℕ → ℕ → ℚ) × RBox :=
  let sal1 := border_zero sal h w cut_w cut_h
  let m1d := flat1d sal1 h w
  let prob := randsal_prob m1d (h * w) val
  let val1 : ℤ := if val = 0 then 1 else val
  if (∑ i ∈ Finset.range (h * w), prob i) = 1 then
    let cx : ℤ := (pick / w : ℕ)
    let cy : ℤ := (pick % w : ℕ)
    (sal1,
     { x1 := cx - (cut_w / 2 : ℕ), y1 := cy - (cut_h / 2 : ℕ)
       x2 := cx + (cut_w / 2 : ℕ), y2 := cy + (cut_h / 2 : ℕ), val := val1 })
  else (sal1, rboxFail)

/-- The mutable state threaded through `randsalMix.__call__`: the image
batch, the label batch and the saliency maps, all mutated in place by the
source. -/
structure RandsalState where
  images : ℕ → ℕ → ℕ → ℕ → ℚ
  labels : ℕ → ℕ → ℚ
  sal_maps : ℕ → ℕ → ℕ → ℚ

/-- The randomness consumed by one iteration of the `randsalMix.__call__`
loop: `copy_idx = np.random.randint(num_items)` (note: the paste index is
*not* excluded), the cut sizes from the Beta draw, and the two
`np.random.choice` picks of the copy- and paste-role `randsal_bbox` calls. -/
structure RandsalRand where
  copy_idx : ℕ
  cut_w : ℕ
  cut_h : ℕ
  pick_copy : ℕ
  pick_paste : ℕ

/-- One iteration of the `randsalMix.__call__` loop (augment.py lines
406-421) for paste index `paste_idx`.  `h, w` are the saliency map dims,
`H = images.shape[-2]`, `W = images.shape[-1]`.  The first `randsal_bbox`
call mutates `sal_maps[copy_idx]`, the second mutates `sal_maps[paste_idx]`
(observing the first mutation when the indices coincide).  On `val == -1`
the iteration `continue`s, leaving images and labels untouched.  Otherwise
the paste box of the paste image is overwritten from the copy box of the
copy image, and the label of the paste item is blended using
`temp_labels`, which *aliases* the mutated `labels` tensor (line 404), so
the copy-side label is the current — possibly already blended — one. -/
def randsal_step (h w H W : ℕ) (st : RandsalState) (paste_idx : ℕ)
    (rnd : RandsalRand) : RandsalState :=
  let copy_idx := rnd.copy_idx
  let res1 := randsal_bbox (st.sal_maps copy_idx) h w rnd.cut_w rnd.cut_h
      0 rnd.pick_copy
  let salMaps1 := fun j => if j = copy_idx then res1.1 else st.sal_maps j
  let cb := res1.2
  let res2 := randsal_bbox (salMaps1 paste_idx) h w rnd.cut_w rnd.cut_h
      cb.val rnd.pick_paste
  let salMaps2 := fun j => if j = paste_idx then res2.1 else salMaps1 j
  let pb := res2.2
  if pb.val = -1 then { st with sal_maps := salMaps2 }
  else
    let images1 := fun (j ch r c : ℕ) =>
      if j = paste_idx ∧ pb.x1 ≤ (r : ℤ) ∧ (r : ℤ) < pb.x2 ∧
          pb.y1 ≤ (c : ℤ) ∧ (c : ℤ) < pb.y2 then
        st.images copy_idx ch ((r : ℤ) - pb.x1 + cb.x1).toNat
          ((c : ℤ) - pb.y1 + cb.y1).toNat
      else st.images j ch r c
    let lam := 1 - (((cb.x2 - cb.x1) * (cb.y2 - cb.y1) : ℤ) : ℚ) /
        ((W * H : ℕ) : ℚ)
    let labels1 := fun j k =>
      if j = paste_idx then
        st.labels paste_idx k * lam + st.labels copy_idx k * (1 - lam)
      else st.labels j k
    { images := images1, labels := labels1, sal_maps := salMaps2 }

/-- The box produced by the copy-role `randsal_bbox` call of one
`randsalMix.__call__` iteration: the call on `sal_maps[copy_idx]` with
`val = 0` (augment.py line 411). -/
def copy_bbox (hs ws : ℕ) (st : RandsalState) (rnd : RandsalRand) : RBox :=
  (randsal_bbox (st.sal_maps rnd.copy_idx) hs ws rnd.cut_w rnd.cut_h 0
    rnd.pick_copy).2

/-- The box produced by the paste-role `randsal_bbox` call of one iteration:
the call on the already-mutated `sal_maps[paste_idx]` with the threaded
`val` (augment.py line 412). -/
def paste_bbox (hs ws : ℕ) (st : RandsalState) (p : ℕ) (rnd : RandsalRand) :
    RBox :=
  (randsal_bbox ((fun j => if j = rnd.copy_idx then
      (randsal_bbox (st.sal_maps rnd.copy_idx) hs ws rnd.cut_w rnd.cut_h 0
        rnd.pick_copy).1
    else st.sal_maps j) p) hs ws rnd.cut_w rnd.cut_h
    (copy_bbox hs ws st rnd).val rnd.pick_paste).2

/-- An `RBox` as a plain bounding box (dropping the role flag). -/
def rbox_to_bbox (b : RBox) : BBox :=
  { r1 := b.x1, c1 := b.y1, r2 := b.x2, c2 := b.y2 }

/-- `randsalMix.__call__` (augment.py lines 402-423): fold the per-item step
over paste indices `0, …, N-1`. -/
def randsalMix_call (h w H W : ℕ) (st : RandsalState) (N : ℕ)
    (rnds : ℕ → RandsalRand) : RandsalState :=
  (List.range N).foldl (fun s p => randsal_step h w H W s p (rnds p)) st

/-! ### Helper lemmas -/

theorem clip_lower (x lo hi : ℤ) : lo ≤ clip x lo hi := by
  simp only [clip]; omega

theorem clip_upper (x lo hi : ℤ) (h : lo ≤ hi) : clip x lo hi ≤ hi := by
  simp only [clip]; omega

theorem clip_mono (x y lo hi : ℤ) (h : x ≤ y) : clip x lo hi ≤ clip y lo hi := by
  simp only [clip]; omega

/-- The box of `_pick_most_salient_pixel` is clipped into the map: each edge
lies in `[0, h]` resp. `[0, w]` and the edges are ordered. -/
theorem pick_box_bounds (sal : ℕ → ℕ → ℚ) (h w cut_h cut_w : ℕ) :
    0 ≤ (pick_most_salient_pixel sal h w cut_h cut_w).r1 ∧
    (pick_most_salient_pixel sal h w cut_h cut_w).r1 ≤
      (pick_most_salient_pixel sal h w cut_h cut_w).r2 ∧
    (pick_most_salient_pixel sal h w cut_h cut_w).r2 ≤ (h : ℤ) ∧
    0 ≤ (pick_most_salient_pixel sal h w cut_h cut_w).c1 ∧
    (pick_most_salient_pixel sal h w cut_h cut_w).c1 ≤
      (pick_most_salient_pixel sal h w cut_h cut_w).c2 ∧
    (pick_most_salient_pixel sal h w cut_h cut_w).c2 ≤ (w : ℤ) := by
  refine ⟨clip_lower _ _ _, clip_mono _ _ _ _ (by omega),
    clip_upper _ _ _ (by positivity), clip_lower _ _ _,
    clip_mono _ _ _ _ (by omega), clip_upper _ _ _ (by positivity)⟩

/-- The box of `SaliencyMix._saliency_bbox` is clipped into `[0, Wd] × [0, Hd]`
with ordered edges. -/
theorem sm_box_bounds (salMap : ℕ → ℕ → ℚ) (Wd Hd cut_w cut_h : ℕ) :
    0 ≤ (saliency_bbox_sm salMap Wd Hd cut_w cut_h).r1 ∧
    (saliency_bbox_sm salMap Wd Hd cut_w cut_h).r1 ≤
      (saliency_bbox_sm salMap Wd Hd cut_w cut_h).r2 ∧
    (saliency_bbox_sm salMap Wd Hd cut_w cut_h).r2 ≤ (Wd : ℤ) ∧
    0 ≤ (saliency_bbox_sm salMap Wd Hd cut_w cut_h).c1 ∧
    (saliency_bbox_sm salMap Wd Hd cut_w cut_h).c1 ≤
      (saliency_bbox_sm salMap Wd Hd cut_w cut_h).c2 ∧
    (saliency_bbox_sm salMap Wd Hd cut_w cut_h).c2 ≤ (Hd : ℤ) := by
  refine ⟨clip_lower _ _ _, clip_mono _ _ _ _ (by omega),
    clip_upper _ _ _ (by positivity), clip_lower _ _ _,
    clip_mono _ _ _ _ (by omega), clip_upper _ _ _ (by positivity)⟩

/-- The corrected lambda of a box with ordered edges inside `[0, H] × [0, W]`
lies in `[0, 1]`. -/
theorem adjust_lambda_mem (b : BBox) (H W : ℕ)
    (h1 : 0 ≤ b.r1) (h2 : b.r1 ≤ b.r2) (h3 : b.r2 ≤ (H : ℤ))
    (h4 : 0 ≤ b.c1) (h5 : b.c1 ≤ b.c2) (h6 : b.c2 ≤ (W : ℤ)) :
    0 ≤ adjust_lambda b H W ∧ adjust_lambda b H W ≤ 1 := by
  unfold adjust_lambda
  have harea : (0 : ℤ) ≤ (b.r2 - b.r1) * (b.c2 - b.c1) :=
    mul_nonneg (by omega) (by omega)
  rcases Nat.eq_zero_or_pos (W * H) with hWH | hWH
  · have hz : (b.r2 - b.r1) * (b.c2 - b.c1) = 0 := by
      rcases Nat.mul_eq_zero.mp hWH with hW | hH
      · have : b.c1 = b.c2 := by omega
        simp [this]
      · have : b.r1 = b.r2 := by omega
        simp [this]
    rw [hz]
    norm_num
  · have hpos : (0 : ℚ) < ((W * H : ℕ) : ℚ) := by
      exact_mod_cast hWH
    have hle : ((b.r2 - b.r1) * (b.c2 - b.c1) : ℤ) ≤ ((W * H : ℕ) : ℤ) := by
      push_cast
      calc (b.r2 - b.r1) * (b.c2 - b.c1) ≤ (H : ℤ) * (W : ℤ) :=
            mul_le_mul (by omega) (by omega) (by omega) (by omega)
        _ = (W : ℤ) * (H : ℤ) := by ring
    constructor
    · have : (((b.r2 - b.r1) * (b.c2 - b.c1) : ℤ) : ℚ) / ((W * H : ℕ) : ℚ) ≤ 1 := by
        rw [div_le_one hpos]
        exact_mod_cast hle
      linarith
    · have : 0 ≤ (((b.r2 - b.r1) * (b.c2 - b.c1) : ℤ) : ℚ) / ((W * H : ℕ) : ℚ) :=
        div_nonneg (by exact_mod_cast harea) (le_of_lt hpos)
      linarith

theorem argmaxFlat_succ (g : ℕ → ℚ) (n : ℕ) :
    argmaxFlat g (n + 1) =
      if g (argmaxFlat g n) < g n then n else argmaxFlat g n := by
  unfold argmaxFlat
  rw [List.range_succ, List.foldl_append]
  rfl

theorem argmaxFlat_zero (g : ℕ → ℚ) : argmaxFlat g 0 = 0 := rfl

theorem argmaxFlat_le (g : ℕ → ℚ) (n : ℕ) : argmaxFlat g (n + 1) ≤ n := by
  induction n with
  | zero => rw [argmaxFlat_succ]; simp [argmaxFlat_zero]
  | succ m ih =>
    rw [argmaxFlat_succ]
    split
    · exact Nat.le_refl _
    · exact Nat.le_succ_of_le ih

/-- `np.argmax` returns an index inside the array (the array is nonempty). -/
theorem argmaxFlat_lt (g : ℕ → ℚ) (n : ℕ) (hn : 0 < n) : argmaxFlat g n < n := by
  obtain ⟨m, rfl⟩ := Nat.exists_eq_add_of_lt hn
  have := argmaxFlat_le g (0 + m)
  omega

/-- `np.argmax` attains the maximum. -/
theorem le_argmaxFlat (g : ℕ → ℚ) (n i : ℕ) (hi : i < n) :
    g i ≤ g (argmaxFlat g n) := by
  induction n with
  | zero => omega
  | succ m ih =>
    rw [argmaxFlat_succ]
    rcases Nat.lt_succ_iff_lt_or_eq.mp hi with hlt | rfl
    · split
      · next hcase => exact le_trans (ih hlt) (le_of_lt hcase)
      · exact ih hlt
    · split
      · exact le_refl _
      · next hcase => exact le_of_not_lt hcase

theorem rowMin_zero (out : ℕ → ℚ) : rowMin out 0 = out 0 := rfl

theorem rowMin_succ (out : ℕ → ℚ) (C : ℕ) :
    rowMin out (C + 1) = min (rowMin out C) (out C) := by
  unfold rowMin
  rw [List.range_succ, List.map_append, List.foldl_append]
  rfl

/-- `outputs.min(1)` is a lower bound of the row. -/
theorem rowMin_le (out : ℕ → ℚ) (C i : ℕ) (hi : i < C) : rowMin out C ≤ out i := by
  induction C with
  | zero => omega
  | succ m ih =>
    rw [rowMin_succ]
    rcases Nat.lt_succ_iff_lt_or_eq.mp hi with hlt | rfl
    · exact le_trans (min_le_left _ _) (ih hlt)
    · exact min_le_right _ _

/-- `outputs.min(1)` is attained in the row. -/
theorem rowMin_mem (out : ℕ → ℚ) (C : ℕ) (hC : 0 < C) :
    ∃ i < C, rowMin out C = out i := by
  induction C with
  | zero => omega
  | succ m ih =>
    rcases Nat.eq_zero_or_pos m with rfl | hm
    · exact ⟨0, Nat.zero_lt_one, by rw [rowMin_succ, rowMin_zero, min_self]⟩
    · obtain ⟨i, hi, hmin⟩ := ih hm
      rw [rowMin_succ]
      rcases le_total (rowMin out m) (out m) with hle | hle
      · exact ⟨i, Nat.lt_succ_of_lt hi, by rw [min_eq_left hle, hmin]⟩
      · exact ⟨m, Nat.lt_succ_self m, min_eq_right hle⟩

/-- A pixel surviving the border zeroing lies strictly inside the borders:
its row is in `[cut_w // 2, h - ⌈cut_w / 2⌉)` and its column in
`[cut_h // 2, w - ⌈cut_h / 2⌉)`. -/
theorem border_zero_nonzero_bounds (sal : ℕ → ℕ → ℚ) (h w cw ch r c : ℕ)
    (hne : border_zero sal h w cw ch r c ≠ 0) :
    cw / 2 ≤ r ∧ r + (cw + 1) / 2 < h ∧ ch / 2 ≤ c ∧ c + (ch + 1) / 2 < w := by
  unfold border_zero at hne
  by_cases hcond : r < cw / 2 ∨ lastZeroStart h cw ≤ r ∨
      c < ch / 2 ∨ lastZeroStart w ch ≤ c
  · rw [if_pos hcond] at hne
    exact absurd rfl hne
  · push_neg at hcond
    obtain ⟨h1, h2, h3, h4⟩ := hcond
    unfold lastZeroStart at h2 h4
    by_cases hcw : cw = 0
    · rw [if_pos hcw] at h2
      omega
    · by_cases hch : ch = 0
      · rw [if_pos hch] at h4
        omega
      · rw [if_neg hcw] at h2
        rw [if_neg hch] at h4
        omega

theorem flat1d_nonzero (sal : ℕ → ℕ → ℚ) (h w i : ℕ)
    (hne : flat1d sal h w i ≠ 0) : i < h * w ∧ sal (i / w) (i % w) ≠ 0 := by
  unfold flat1d at hne
  by_cases hi : i < h * w
  · rw [if_pos hi] at hne
    exact ⟨hi, hne⟩
  · rw [if_neg hi] at hne
    exact absurd rfl hne

/-- `prob` is supported on the nonzero positions of the flattened map. -/
theorem randsal_prob_ne_zero (m1d : ℕ → ℚ) (hw : ℕ) (val : ℤ) (i : ℕ)
    (hne : randsal_prob m1d hw val i ≠ 0) : m1d i ≠ 0 := by
  unfold randsal_prob at hne
  intro hzero
  simp only [hzero] at hne
  split_ifs at hne <;> exact hne rfl

/-- Whenever any entry of `prob` is nonzero, `prob.sum() == 1` holds exactly
(the probabilities are exact rationals here; this is the success branch of
`randsal_bbox`). -/
theorem randsal_prob_sum_one (m1d : ℕ → ℚ) (hw : ℕ) (val : ℤ) (i : ℕ)
    (hne : randsal_prob m1d hw val i ≠ 0) :
    ∑ j ∈ Finset.range hw, randsal_prob m1d hw val j = 1 := by
  by_cases hval0 : val = 0
  · by_cases hs : (∑ j ∈ Finset.range hw, m1d j) = 0
    · exfalso
      apply hne
      by_cases hi : m1d i = 0 <;> simp [randsal_prob, hval0, hs, hi]
    · have hcongr : ∀ j ∈ Finset.range hw, randsal_prob m1d hw val j =
          m1d j / (∑ k ∈ Finset.range hw, m1d k) := by
        intro j _
        by_cases hj : m1d j = 0 <;> simp [randsal_prob, hval0, hs, hj]
      rw [Finset.sum_congr rfl hcongr, ← Finset.sum_div, div_self hs]
  · by_cases hval1 : val = 1
    · by_cases hs : (∑ j ∈ Finset.range hw, m1d j) = 0
      · exfalso
        apply hne
        by_cases hi : m1d i = 0 <;> simp [randsal_prob, hval0, hval1, hs, hi]
      · by_cases ht : (∑ j ∈ Finset.range hw,
            (if m1d j = 0 then 0 else 255 - m1d j)) = 0
        · exfalso
          apply hne
          by_cases hi : m1d i = 0 <;>
            simp [randsal_prob, hval0, hval1, hs, ht, hi, div_zero]
        · have hcongr : ∀ j ∈ Finset.range hw, randsal_prob m1d hw val j =
              (if m1d j = 0 then 0 else 255 - m1d j) /
                (∑ k ∈ Finset.range hw, (if m1d k = 0 then 0 else 255 - m1d k)) := by
            intro j _
            by_cases hj : m1d j = 0 <;>
              simp [randsal_prob, hval0, hval1, hs, hj]
          rw [Finset.sum_congr rfl hcongr, ← Finset.sum_div, div_self ht]
    · exfalso
      apply hne
      simp [randsal_prob, hval0, hval1]

theorem randsal_bbox_of_sum_ne (sal : ℕ → ℕ → ℚ) (h w cw ch : ℕ) (val : ℤ)
    (pick : ℕ)
    (hsum : (∑ i ∈ Finset.range (h * w),
      randsal_prob (flat1d (border_zero sal h w cw ch) h w) (h * w) val i) ≠ 1) :
    randsal_bbox sal h w cw ch val pick =
      (border_zero sal h w cw ch, rboxFail) := by
  simp only [randsal_bbox]
  rw [if_neg hsum]

theorem randsal_bbox_of_sum_eq (sal : ℕ → ℕ → ℚ) (h w cw ch : ℕ) (val : ℤ)
    (pick : ℕ)
    (hsum : (∑ i ∈ Finset.range (h * w),
      randsal_prob (flat1d (border_zero sal h w cw ch) h w) (h * w) val i) = 1) :
    randsal_bbox sal h w cw ch val pick =
      (border_zero sal h w cw ch,
       { x1 := ((pick / w : ℕ) : ℤ) - ((cw / 2 : ℕ) : ℤ)
         y1 := ((pick % w : ℕ) : ℤ) - ((ch / 2 : ℕ) : ℤ)
         x2 := ((pick / w : ℕ) : ℤ) + ((cw / 2 : ℕ) : ℤ)
         y2 := ((pick % w : ℕ) : ℤ) + ((ch / 2 : ℕ) : ℤ)
         val := if val = 0 then 1 else val }) := by
  simp only [randsal_bbox]
  rw [if_pos hsum]

/-- A `randsal_bbox` call whose `val` argument is neither 0 nor 1 (the `-1`
sentinel threaded from a failed first call) assigns no probabilities and
returns the sentinel. -/
theorem randsal_bbox_fail_of_bad_val (sal : ℕ → ℕ → ℚ) (h w cw ch : ℕ)
    (val : ℤ) (pick : ℕ) (hv0 : val ≠ 0) (hv1 : val ≠ 1) :
    randsal_bbox sal h w cw ch val pick =
      (border_zero sal h w cw ch, rboxFail) := by
  apply randsal_bbox_of_sum_ne
  have hzero : ∀ i ∈ Finset.range (h * w),
      randsal_prob (flat1d (border_zero sal h w cw ch) h w) (h * w) val i = 0 := by
    intro i _
    simp [randsal_prob, hv0, hv1]
  rw [Finset.sum_eq_zero hzero]
  norm_num

/-- If the border-zeroed map is all zero, `randsal_bbox` returns the
sentinel, whatever the role flag and the pick. -/
theorem randsal_bbox_all_zero (sal : ℕ → ℕ → ℚ) (h w cw ch : ℕ) (val : ℤ)
    (pick : ℕ)
    (hz : ∀ r < h, ∀ c < w, border_zero sal h w cw ch r c = 0) :
    randsal_bbox sal h w cw ch val pick =
      (border_zero sal h w cw ch, rboxFail) := by
  apply randsal_bbox_of_sum_ne
  have hm : ∀ i, flat1d (border_zero sal h w cw ch) h w i = 0 := by
    intro i
    unfold flat1d
    by_cases hi : i < h * w
    · rw [if_pos hi]
      have hw0 : 0 < w := by
        rcases Nat.eq_zero_or_pos w with rfl | hw0
        · omega
        · exact hw0
      have hi' : i < w * h := by rwa [Nat.mul_comm w h]
      exact hz _ (Nat.div_lt_of_lt_mul hi') _ (Nat.mod_lt _ hw0)
    · rw [if_neg hi]
  have hzero : ∀ i ∈ Finset.range (h * w),
      randsal_prob (flat1d (border_zero sal h w cw ch) h w) (h * w) val i = 0 := by
    intro i _
    by_contra hne
    exact (randsal_prob_ne_zero _ _ _ _ hne) (hm i)
  rw [Finset.sum_eq_zero hzero]
  norm_num

/-- If `prob.sum() == 1` for a `randsal_bbox` call, then the surviving
region is nonempty and both cut sizes are nonzero and strictly smaller than
the corresponding map dimension. -/
theorem randsal_sum_one_cut_lt (sal : ℕ → ℕ → ℚ) (h w cw ch : ℕ) (val : ℤ)
    (hsum : (∑ i ∈ Finset.range (h * w),
      randsal_prob (flat1d (border_zero sal h w cw ch) h w) (h * w) val i) = 1) :
    cw < h ∧ ch < w := by
  have hne : (∑ i ∈ Finset.range (h * w),
      randsal_prob (flat1d (border_zero sal h w cw ch) h w) (h * w) val i) ≠ 0 := by
    rw [hsum]; norm_num
  obtain ⟨i, _, hi⟩ := Finset.exists_ne_zero_of_sum_ne_zero hne
  have hm := randsal_prob_ne_zero _ _ _ _ hi
  obtain ⟨hlt, hsal⟩ := flat1d_nonzero _ _ _ _ hm
  have hb := border_zero_nonzero_bounds sal h w cw ch _ _ hsal
  omega

/-- If the pick is in the support of the sampling distribution (as
`np.random.choice(..., p=prob)` guarantees), `randsal_bbox` succeeds and its
box — although never explicitly clipped — lies inside `[0, h] × [0, w]` with
ordered edges. -/
theorem randsal_box_bounds_of_pick (sal : ℕ → ℕ → ℚ) (h w cw ch : ℕ)
    (val : ℤ) (pick : ℕ)
    (hpick : randsal_prob (flat1d (border_zero sal h w cw ch) h w) (h * w)
      val pick ≠ 0) :
    ((randsal_bbox sal h w cw ch val pick).2).val = 1 ∧
    0 ≤ ((randsal_bbox sal h w cw ch val pick).2).x1 ∧
    ((randsal_bbox sal h w cw ch val pick).2).x1 ≤
      ((randsal_bbox sal h w cw ch val pick).2).x2 ∧
    ((randsal_bbox sal h w cw ch val pick).2).x2 ≤ (h : ℤ) ∧
    0 ≤ ((randsal_bbox sal h w cw ch val pick).2).y1 ∧
    ((randsal_bbox sal h w cw ch val pick).2).y1 ≤
      ((randsal_bbox sal h w cw ch val pick).2).y2 ∧
    ((randsal_bbox sal h w cw ch val pick).2).y2 ≤ (w : ℤ) := by
  have hsum := randsal_prob_sum_one _ _ _ _ hpick
  have hm := randsal_prob_ne_zero _ _ _ _ hpick
  obtain ⟨hlt, hsal⟩ := flat1d_nonzero _ _ _ _ hm
  have hb := border_zero_nonzero_bounds sal h w cw ch _ _ hsal
  have hval : val = 0 ∨ val = 1 := by
    by_contra hcon
    push_neg at hcon
    apply hpick
    simp [randsal_prob, hcon.1, hcon.2]
  rw [randsal_bbox_of_sum_eq sal h w cw ch val pick hsum]
  have hv1 : (if val = 0 then 1 else val) = 1 := by
    rcases hval with rfl | rfl <;> simp
  refine ⟨hv1, ?_, ?_, ?_, ?_, ?_, ?_⟩ <;> push_cast <;> omega

theorem argmaxFlat_const (q : ℚ) (n : ℕ) : argmaxFlat (fun _ => q) n = 0 := by
  induction n with
  | zero => rfl
  | succ m ih => rw [argmaxFlat_succ]; simp [ih]

/-- If the border-zeroed copy map of a `randsalMix` iteration is all zero,
the iteration takes the `continue` branch: images and labels are returned
untouched (only the saliency maps keep their in-place border zeroing). -/
theorem randsal_step_skip_of_copy_all_zero (hs ws H W : ℕ) (st : RandsalState)
    (p : ℕ) (rnd : RandsalRand)
    (hz : ∀ r < hs, ∀ c < ws,
      border_zero (st.sal_maps rnd.copy_idx) hs ws rnd.cut_w rnd.cut_h r c = 0) :
    (randsal_step hs ws H W st p rnd).images = st.images ∧
    (randsal_step hs ws H W st p rnd).labels = st.labels := by
  have h1 := randsal_bbox_all_zero (st.sal_maps rnd.copy_idx) hs ws
    rnd.cut_w rnd.cut_h 0 rnd.pick_copy hz
  have h2 := randsal_bbox_fail_of_bad_val
    (if p = rnd.copy_idx then
      border_zero (st.sal_maps rnd.copy_idx) hs ws rnd.cut_w rnd.cut_h
     else st.sal_maps p)
    hs ws rnd.cut_w rnd.cut_h (-1) rnd.pick_paste (by norm_num) (by norm_num)
  constructor <;>
  · simp only [randsal_step, h1]
    simp only [rboxFail]
    simp only [h2]
    simp [rboxFail]

theorem adjust_lambda_translate (b b' : BBox) (H W : ℕ)
    (h1 : b.r2 - b.r1 = b'.r2 - b'.r1) (h2 : b.c2 - b.c1 = b'.c2 - b'.c1) :
    adjust_lambda b H W = adjust_lambda b' H W := by
  unfold adjust_lambda
  rw [h1, h2]

/-- A non-skipped `randsalMix` iteration blends the paste item's label with
coefficient `1 − copy-box-area / (W·H)`, i.e. with
`adjust_lambda` of the copy-call box, reading both labels from the current
(aliased) label state. -/
theorem randsal_step_labels_of_success (hs ws H W : ℕ) (st : RandsalState)
    (p : ℕ) (rnd : RandsalRand) (k : ℕ)
    (hval : (paste_bbox hs ws st p rnd).val ≠ -1) :
    (randsal_step hs ws H W st p rnd).labels p k =
      st.labels p k *
        adjust_lambda (rbox_to_bbox (copy_bbox hs ws st rnd)) H W +
      st.labels rnd.copy_idx k *
        (1 - adjust_lambda (rbox_to_bbox (copy_bbox hs ws st rnd)) H W) := by
  simp only [paste_bbox, copy_bbox] at hval
  simp only [randsal_step]
  rw [if_neg hval]
  simp [adjust_lambda, rbox_to_bbox, copy_bbox]

/-- On a non-skipped iteration the corrected lambda of the copy box lies in
`[0, 1]`: success of the copy-role call forces both cut sizes below the map
dimensions, and the (unclipped) copy box has extent `2·(cut//2)` in each
direction. -/
theorem randsal_success_lambda_mem (hs ws H W : ℕ) (st : RandsalState)
    (p : ℕ) (rnd : RandsalRand) (hhs : hs = H) (hws : ws = W)
    (hval : (paste_bbox hs ws st p rnd).val ≠ -1) :
    0 ≤ adjust_lambda (rbox_to_bbox (copy_bbox hs ws st rnd)) H W ∧
    adjust_lambda (rbox_to_bbox (copy_bbox hs ws st rnd)) H W ≤ 1 := by
  by_cases hv1 : (copy_bbox hs ws st rnd).val = -1
  · exfalso
    apply hval
    unfold paste_bbox
    rw [hv1, randsal_bbox_fail_of_bad_val _ _ _ _ _ (-1) _ (by norm_num)
      (by norm_num)]
    rfl
  · by_cases hsum : (∑ i ∈ Finset.range (hs * ws),
        randsal_prob (flat1d (border_zero (st.sal_maps rnd.copy_idx) hs ws
          rnd.cut_w rnd.cut_h) hs ws) (hs * ws) 0 i) = 1
    · have hcut := randsal_sum_one_cut_lt (st.sal_maps rnd.copy_idx) hs ws
        rnd.cut_w rnd.cut_h 0 hsum
      have hbox : copy_bbox hs ws st rnd =
          { x1 := ((rnd.pick_copy / ws : ℕ) : ℤ) - ((rnd.cut_w / 2 : ℕ) : ℤ)
            y1 := ((rnd.pick_copy % ws : ℕ) : ℤ) - ((rnd.cut_h / 2 : ℕ) : ℤ)
            x2 := ((rnd.pick_copy / ws : ℕ) : ℤ) + ((rnd.cut_w / 2 : ℕ) : ℤ)
            y2 := ((rnd.pick_copy % ws : ℕ) : ℤ) + ((rnd.cut_h / 2 : ℕ) : ℤ)
            val := 1 } := by
        unfold copy_bbox
        rw [randsal_bbox_of_sum_eq _ _ _ _ _ _ _ hsum]
        norm_num
      rw [hbox]
      have htrans : adjust_lambda (rbox_to_bbox
          { x1 := ((rnd.pick_copy / ws : ℕ) : ℤ) - ((rnd.cut_w / 2 : ℕ) : ℤ)
            y1 := ((rnd.pick_copy % ws : ℕ) : ℤ) - ((rnd.cut_h / 2 : ℕ) : ℤ)
            x2 := ((rnd.pick_copy / ws : ℕ) : ℤ) + ((rnd.cut_w / 2 : ℕ) : ℤ)
            y2 := ((rnd.pick_copy % ws : ℕ) : ℤ) + ((rnd.cut_h / 2 : ℕ) : ℤ)
            val := 1 }) H W =
          adjust_lambda
            { r1 := 0, c1 := 0
              r2 := 2 * ((rnd.cut_w / 2 : ℕ) : ℤ)
              c2 := 2 * ((rnd.cut_h / 2 : ℕ) : ℤ) } H W := by
        apply adjust_lambda_translate <;> simp [rbox_to_bbox] <;> ring
      rw [htrans]
      apply adjust_lambda_mem
      · simp
      · simp
        positivity
      · simp
        omega
      · simp
      · simp
        positivity
      · simp
        omega
    · exfalso
      apply hv1
      unfold copy_bbox
      rw [randsal_bbox_of_sum_ne _ _ _ _ _ _ _ hsum]
      rfl

/-! ### Claim theorems -/

/-- Claim C1: in every embedded mix variant (`SaliencyMix`,
`SaliencyMixFixed`, `ErrorMix`, `randsalMix`) the label-blend coefficient is
exactly `1 − area(box)/(H·W)`, recomputed from the box used for the pixel
copy, and lies in `[0, 1]`.  The sampled Beta value only enters through the
cut sizes, which are universally quantified here, so the identity holds for
*every* draw: the raw pre-clip sample is never the blend coefficient. -/
theorem claim1_corrected_lambda
    (images : ℕ → ℕ → ℕ → ℕ → ℚ) (labels : ℕ → ℕ → ℚ)
    (sal_maps : ℕ → ℕ → ℕ → ℚ) (salMap : ℕ → ℕ → ℚ)
    (Wd Hd salH salW H W hs ws : ℕ)
    (rand_index copy_indices picks : ℕ → ℕ) (cuts : ℕ → ℕ × ℕ)
    (cw ch : ℕ) (st : RandsalState) (p : ℕ) (rnd : RandsalRand)
    (hsalH : salH = H) (hsalW : salW = W) (hhs : hs = H) (hws : ws = W) :
    (0 ≤ adjust_lambda (saliency_bbox_sm salMap Wd Hd cw ch) Wd Hd ∧
     adjust_lambda (saliency_bbox_sm salMap Wd Hd cw ch) Wd Hd ≤ 1 ∧
     ∀ j k, (SaliencyMix_call images labels salMap Wd Hd rand_index cw ch).2 j k =
       labels j k * adjust_lambda (saliency_bbox_sm salMap Wd Hd cw ch) Wd Hd +
       labels (rand_index j) k *
         (1 - adjust_lambda (saliency_bbox_sm salMap Wd Hd cw ch) Wd Hd)) ∧
    (∀ q,
      0 ≤ adjust_lambda (pick_most_salient_pixel (sal_maps (copy_indices q))
        salH salW (cuts q).1 (cuts q).2) H W ∧
      adjust_lambda (pick_most_salient_pixel (sal_maps (copy_indices q))
        salH salW (cuts q).1 (cuts q).2) H W ≤ 1 ∧
      ∀ k, (SaliencyMixFixed_call images labels sal_maps salH salW H W
          copy_indices cuts).2 q k =
        labels q k * adjust_lambda (pick_most_salient_pixel
          (sal_maps (copy_indices q)) salH salW (cuts q).1 (cuts q).2) H W +
        labels (copy_indices q) k *
          (1 - adjust_lambda (pick_most_salient_pixel
            (sal_maps (copy_indices q)) salH salW (cuts q).1 (cuts q).2) H W)) ∧
    (∀ q,
      0 ≤ adjust_lambda (pick_most_salient_pixel (sal_maps (picks q))
        salH salW (cuts q).1 (cuts q).2) H W ∧
      adjust_lambda (pick_most_salient_pixel (sal_maps (picks q))
        salH salW (cuts q).1 (cuts q).2) H W ≤ 1 ∧
      ∀ k, (ErrorMix_call images labels sal_maps salH salW H W picks cuts).2 q k =
        labels q k * adjust_lambda (pick_most_salient_pixel
          (sal_maps (picks q)) salH salW (cuts q).1 (cuts q).2) H W +
        labels (picks q) k *
          (1 - adjust_lambda (pick_most_salient_pixel
            (sal_maps (picks q)) salH salW (cuts q).1 (cuts q).2) H W)) ∧
    ((paste_bbox hs ws st p rnd).val ≠ -1 →
      0 ≤ adjust_lambda (rbox_to_bbox (copy_bbox hs ws st rnd)) H W ∧
      adjust_lambda (rbox_to_bbox (copy_bbox hs ws st rnd)) H W ≤ 1 ∧
      ∀ k, (randsal_step hs ws H W st p rnd).labels p k =
        st.labels p k * adjust_lambda (rbox_to_bbox (copy_bbox hs ws st rnd)) H W +
        st.labels rnd.copy_idx k *
          (1 - adjust_lambda (rbox_to_bbox (copy_bbox hs ws st rnd)) H W)) := by
  refine ⟨?_, ?_, ?_, ?_⟩
  · obtain ⟨b1, b2, b3, b4, b5, b6⟩ := sm_box_bounds salMap Wd Hd cw ch
    obtain ⟨m1, m2⟩ := adjust_lambda_mem _ Wd Hd b1 b2 b3 b4 b5 b6
    exact ⟨m1, m2, fun j k => rfl⟩
  · intro q
    obtain ⟨b1, b2, b3, b4, b5, b6⟩ := pick_box_bounds
      (sal_maps (copy_indices q)) salH salW (cuts q).1 (cuts q).2
    have hcH : ((salH : ℤ)) = (H : ℤ) := by rw [hsalH]
    have hcW : ((salW : ℤ)) = (W : ℤ) := by rw [hsalW]
    obtain ⟨m1, m2⟩ := adjust_lambda_mem _ H W b1 b2 (b3.trans_eq hcH)
      b4 b5 (b6.trans_eq hcW)
    exact ⟨m1, m2, fun k => rfl⟩
  · intro q
    obtain ⟨b1, b2, b3, b4, b5, b6⟩ := pick_box_bounds
      (sal_maps (picks q)) salH salW (cuts q).1 (cuts q).2
    have hcH : ((salH : ℤ)) = (H : ℤ) := by rw [hsalH]
    have hcW : ((salW : ℤ)) = (W : ℤ) := by rw [hsalW]
    obtain ⟨m1, m2⟩ := adjust_lambda_mem _ H W b1 b2 (b3.trans_eq hcH)
      b4 b5 (b6.trans_eq hcW)
    exact ⟨m1, m2, fun k => rfl⟩
  · intro hval
    obtain ⟨m1, m2⟩ := randsal_success_lambda_mem hs ws H W st p rnd hhs hws hval
    exact ⟨m1, m2, fun k =>
      randsal_step_labels_of_success hs ws H W st p rnd k hval⟩

/-- Witness for C1: the `SaliencyMix` conjunct at a concrete input
(constant saliency map, 4×4 images, 2×2 cut). -/
theorem claim1_corrected_lambda_witness :
    ((4 : ℕ) = 4 ∧ (4 : ℕ) = 4 ∧ (4 : ℕ) = 4 ∧ (4 : ℕ) = 4) ∧
    (0 ≤ adjust_lambda (saliency_bbox_sm (fun _ _ => 1) 4 4 2 2) 4 4 ∧
     adjust_lambda (saliency_bbox_sm (fun _ _ => 1) 4 4 2 2) 4 4 ≤ 1 ∧
     ∀ j k, (SaliencyMix_call (fun _ _ _ _ => 0)
         (fun j k => if j = k then (1 : ℚ) else 0)
         (fun _ _ => 1) 4 4 (fun j => j) 2 2).2 j k =
       (fun j k => if j = k then (1 : ℚ) else 0) j k *
         adjust_lambda (saliency_bbox_sm (fun _ _ => 1) 4 4 2 2) 4 4 +
       (fun j k => if j = k then (1 : ℚ) else 0) ((fun j => j) j) k *
         (1 - adjust_lambda (saliency_bbox_sm (fun _ _ => 1) 4 4 2 2) 4 4)) :=
  ⟨⟨rfl, rfl, rfl, rfl⟩,
   (claim1_corrected_lambda (fun _ _ _ _ => 0)
     (fun j k => if j = k then (1 : ℚ) else 0) (fun _ _ _ => 1) (fun _ _ => 1)
     4 4 4 4 4 4 4 4 (fun j => j) (fun j => j) (fun j => j) (fun _ => (2, 2))
     2 2 (RandsalState.mk (fun _ _ _ _ => 0) (fun _ _ => 0) (fun _ _ _ => 1))
     0 (RandsalRand.mk 0 2 2 5 5) rfl rfl rfl rfl).1⟩

/-- Claim C3: every bounding box produced by any region-selection strategy
satisfies `0 ≤ row1 ≤ row2 ≤ H` and `0 ≤ col1 ≤ col2 ≤ W` for the underlying
map dimensions: (i) the clipped box of `_pick_most_salient_pixel`; (ii) the
clipped box of `_saliency_bbox` (rows bounded by `W = size[1]`, columns by
`H = size[2]` in the source's own naming); (iii) the box of the
probability-weighted selector `randsal_bbox`, which has no explicit clip —
provided the sampled flat index `pick` lies in the support of the sampling
distribution, as `np.random.choice(..., p=prob)` guarantees. -/
theorem claim3_bbox_bounds
    (sal salMap sal2 : ℕ → ℕ → ℚ) (h w cut_h cut_w Wd Hd hs ws cw ch : ℕ)
    (val : ℤ) (pick : ℕ)
    (hpick : randsal_prob (flat1d (border_zero sal2 hs ws cw ch) hs ws)
      (hs * ws) val pick ≠ 0) :
    (0 ≤ (pick_most_salient_pixel sal h w cut_h cut_w).r1 ∧
     (pick_most_salient_pixel sal h w cut_h cut_w).r1 ≤
       (pick_most_salient_pixel sal h w cut_h cut_w).r2 ∧
     (pick_most_salient_pixel sal h w cut_h cut_w).r2 ≤ (h : ℤ) ∧
     0 ≤ (pick_most_salient_pixel sal h w cut_h cut_w).c1 ∧
     (pick_most_salient_pixel sal h w cut_h cut_w).c1 ≤
       (pick_most_salient_pixel sal h w cut_h cut_w).c2 ∧
     (pick_most_salient_pixel sal h w cut_h cut_w).c2 ≤ (w : ℤ)) ∧
    (0 ≤ (saliency_bbox_sm salMap Wd Hd cut_w cut_h).r1 ∧
     (saliency_bbox_sm salMap Wd Hd cut_w cut_h).r1 ≤
       (saliency_bbox_sm salMap Wd Hd cut_w cut_h).r2 ∧
     (saliency_bbox_sm salMap Wd Hd cut_w cut_h).r2 ≤ (Wd : ℤ) ∧
     0 ≤ (saliency_bbox_sm salMap Wd Hd cut_w cut_h).c1 ∧
     (saliency_bbox_sm salMap Wd Hd cut_w cut_h).c1 ≤
       (saliency_bbox_sm salMap Wd Hd cut_w cut_h).c2 ∧
     (saliency_bbox_sm salMap Wd Hd cut_w cut_h).c2 ≤ (Hd : ℤ)) ∧
    (((randsal_bbox sal2 hs ws cw ch val pick).2).val = 1 ∧
     0 ≤ ((randsal_bbox sal2 hs ws cw ch val pick).2).x1 ∧
     ((randsal_bbox sal2 hs ws cw ch val pick).2).x1 ≤
       ((randsal_bbox sal2 hs ws cw ch val pick).2).x2 ∧
     ((randsal_bbox sal2 hs ws cw ch val pick).2).x2 ≤ (hs : ℤ) ∧
     0 ≤ ((randsal_bbox sal2 hs ws cw ch val pick).2).y1 ∧
     ((randsal_bbox sal2 hs ws cw ch val pick).2).y1 ≤
       ((randsal_bbox sal2 hs ws cw ch val pick).2).y2 ∧
     ((randsal_bbox sal2 hs ws cw ch val pick).2).y2 ≤ (ws : ℤ)) :=
  ⟨pick_box_bounds sal h w cut_h cut_w,
   sm_box_bounds salMap Wd Hd cut_w cut_h,
   randsal_box_bounds_of_pick sal2 hs ws cw ch val pick hpick⟩

/-- Witness for C3 at a concrete input: a constant-100 4×4 saliency map,
cut sizes 2×2, copy role, pick = flat index 5 (a surviving interior pixel). -/
theorem claim3_bbox_bounds_witness :
    (randsal_prob (flat1d (border_zero (fun _ _ => 100) 4 4 2 2) 4 4)
      (4 * 4) 0 5 ≠ 0) ∧
    (((randsal_bbox (fun _ _ => 100) 4 4 2 2 0 5).2).val = 1 ∧
     0 ≤ ((randsal_bbox (fun _ _ => 100) 4 4 2 2 0 5).2).x1 ∧
     ((randsal_bbox (fun _ _ => 100) 4 4 2 2 0 5).2).x1 ≤
       ((randsal_bbox (fun _ _ => 100) 4 4 2 2 0 5).2).x2 ∧
     ((randsal_bbox (fun _ _ => 100) 4 4 2 2 0 5).2).x2 ≤ (4 : ℤ) ∧
     0 ≤ ((randsal_bbox (fun _ _ => 100) 4 4 2 2 0 5).2).y1 ∧
     ((randsal_bbox (fun _ _ => 100) 4 4 2 2 0 5).2).y1 ≤
       ((randsal_bbox (fun _ _ => 100) 4 4 2 2 0 5).2).y2 ∧
     ((randsal_bbox (fun _ _ => 100) 4 4 2 2 0 5).2).y2 ≤ (4 : ℤ)) :=
  ⟨by norm_num [randsal_prob, flat1d, border_zero, lastZeroStart,
      Finset.sum_range_succ],
   (claim3_bbox_bounds (fun _ _ => 0) (fun _ _ => 0) (fun _ _ => 100)
     3 3 1 1 3 3 4 4 2 2 0 5 (by norm_num [randsal_prob, flat1d, border_zero,
       lastZeroStart, Finset.sum_range_succ])).2.2⟩

/-- Claim C5: `ErrorMix.update_error_matrix` normalizes each item's outputs
by subtracting the per-item minimum (`rowMin` is a lower bound of the row
and is attained) and dividing by the per-item sum of the shifted scores;
then, for each item `i` with dominant label class `li = argmax(labels[i])`
(`li` is in range and attains the row maximum), row `li` of the matrix is
replaced by `w·|normalized_outputs − labels| + (1−w)·row_li` elementwise and
no other row changes for that item; the whole update is the fold of this
per-item step over the batch. -/
theorem claim5_update_error_matrix (w : ℚ) (outputs labels : ℕ → ℕ → ℚ)
    (C N : ℕ) (M : ℕ → ℕ → ℚ) (i : ℕ) (hC : 0 < C) :
    (∀ k, normalize_outputs (outputs i) C k =
      (outputs i k - rowMin (outputs i) C) /
        (∑ b ∈ Finset.range C, (outputs i b - rowMin (outputs i) C))) ∧
    (∀ k < C, rowMin (outputs i) C ≤ outputs i k) ∧
    (∃ k < C, rowMin (outputs i) C = outputs i k) ∧
    (∀ b, update_error_matrix_step w
        (fun j b' => |normalize_outputs (outputs j) C b' - labels j b'|)
        labels C M i (argmaxFlat (labels i) C) b =
      w * |normalize_outputs (outputs i) C b - labels i b| +
        (1 - w) * M (argmaxFlat (labels i) C) b) ∧
    (∀ a b, a ≠ argmaxFlat (labels i) C →
      update_error_matrix_step w
        (fun j b' => |normalize_outputs (outputs j) C b' - labels j b'|)
        labels C M i a b = M a b) ∧
    (argmaxFlat (labels i) C < C ∧
      ∀ k < C, labels i k ≤ labels i (argmaxFlat (labels i) C)) ∧
    update_error_matrix w outputs labels C N M =
      (List.range N).foldl (update_error_matrix_step w
        (fun j b' => |normalize_outputs (outputs j) C b' - labels j b'|)
        labels C) M := by
  refine ⟨fun k => rfl, fun k hk => rowMin_le _ _ _ hk, rowMin_mem _ _ hC,
    ?_, ?_, ⟨argmaxFlat_lt _ _ hC, fun k hk => le_argmaxFlat _ _ _ hk⟩, rfl⟩
  · intro b
    simp only [update_error_matrix_step, if_pos rfl]
  · intro a b ha
    simp only [update_error_matrix_step, if_neg ha]

/-- Witness for C5: two classes, concrete outputs `(3, 1)`, one-hot label on
class 0, decay weight `1/2`, uniform initial matrix. -/
theorem claim5_update_error_matrix_witness :
    0 < 2 ∧
    (∀ k, normalize_outputs ((fun _ b => if b = 0 then (3 : ℚ) else 1) 0) 2 k =
      ((fun _ b => if b = 0 then (3 : ℚ) else 1) 0 k -
          rowMin ((fun _ b => if b = 0 then (3 : ℚ) else 1) 0) 2) /
        (∑ b ∈ Finset.range 2, ((fun _ b => if b = 0 then (3 : ℚ) else 1) 0 b -
          rowMin ((fun _ b => if b = 0 then (3 : ℚ) else 1) 0) 2))) := by
  refine ⟨by norm_num, ?_⟩
  exact (claim5_update_error_matrix (1/2)
    (fun _ b => if b = 0 then (3 : ℚ) else 1)
    (fun _ b => if b = 0 then (1 : ℚ) else 0) 2 1
    (fun _ _ => 1/2) 0 (by norm_num)).1

/-- Claim C6: the adaptive partner-selection distribution gives every
non-excluded item `j` mass `((1 − error_matrix[cls p, cls j]) + ε) / S`
(i.e. proportional to `(1 − error_matrix[cls p, cls j]) + ε`), gives the
excluded paste index exactly 0, and sums to 1, where `S` is the total
pre-normalization mass (nonzero so the renormalization is well defined). -/
theorem claim6_partner_prob (error_matrix : ℕ → ℕ → ℚ) (labels_idx : ℕ → ℕ)
    (p : ℕ) (eps : ℚ) (N : ℕ)
    (hS : (∑ j ∈ Finset.range N, (if j = p then 0
      else (1 - error_matrix (labels_idx p) (labels_idx j)) + eps)) ≠ 0) :
    (∀ j, j ≠ p → partner_prob error_matrix labels_idx p eps N j =
      ((1 - error_matrix (labels_idx p) (labels_idx j)) + eps) /
        (∑ j' ∈ Finset.range N, (if j' = p then 0
          else (1 - error_matrix (labels_idx p) (labels_idx j')) + eps))) ∧
    partner_prob error_matrix labels_idx p eps N p = 0 ∧
    (∑ j ∈ Finset.range N, partner_prob error_matrix labels_idx p eps N j) = 1 := by
  refine ⟨?_, ?_, ?_⟩
  · intro j hj
    simp only [partner_prob, if_neg hj]
  · simp [partner_prob]
  · simp only [partner_prob]
    rw [← Finset.sum_div, div_self hS]

/-- Witness for C6: batch of 2 items, paste index 0, uniform 2-class error
matrix at `1/2`, `ε = 1/1000`. -/
theorem claim6_partner_prob_witness :
    ((∑ j ∈ Finset.range 2, (if j = 0 then 0
      else (1 - (fun _ _ => (1 : ℚ)/2) 0 j) + 1/1000)) ≠ 0) ∧
    partner_prob (fun _ _ => (1 : ℚ)/2) (fun j => j) 0 (1/1000) 2 0 = 0 ∧
    (∑ j ∈ Finset.range 2,
      partner_prob (fun _ _ => (1 : ℚ)/2) (fun j => j) 0 (1/1000) 2 j) = 1 := by
  have hS : (∑ j ∈ Finset.range 2, (if j = 0 then 0
      else (1 - (fun _ _ => (1 : ℚ)/2) 0 j) + 1/1000)) ≠ 0 := by
    norm_num [Finset.sum_range_succ]
  have h := claim6_partner_prob (fun _ _ => (1 : ℚ)/2) (fun j => j) 0
    (1/1000) 2 hS
  exact ⟨hS, h.2.1, h.2.2⟩

/-- Claim C4: if a saliency map is all zero after border-zeroing, the
probability-weighted selector returns the sentinel five-tuple
`(-1, -1, -1, -1, -1)` (no exception, no out-of-range box), and the mixer
iteration for that paste index takes the `continue` branch, leaving the
whole image batch and label batch exactly as they were — in particular that
item is unmixed — while the fold of `randsalMix_call` goes on to the
remaining paste indices. -/
theorem claim4_degenerate_skip (hs ws H W : ℕ) (st : RandsalState) (p N : ℕ)
    (rnd : RandsalRand) (rnds : ℕ → RandsalRand)
    (hz : ∀ r < hs, ∀ c < ws,
      border_zero (st.sal_maps rnd.copy_idx) hs ws rnd.cut_w rnd.cut_h r c = 0) :
    (randsal_bbox (st.sal_maps rnd.copy_idx) hs ws rnd.cut_w rnd.cut_h 0
        rnd.pick_copy).2 = rboxFail ∧
    (randsal_step hs ws H W st p rnd).images = st.images ∧
    (randsal_step hs ws H W st p rnd).labels = st.labels ∧
    randsalMix_call hs ws H W st (N + 1) rnds =
      (List.range (N + 1)).foldl
        (fun s q => randsal_step hs ws H W s q (rnds q)) st := by
  have h1 := randsal_bbox_all_zero (st.sal_maps rnd.copy_idx) hs ws
    rnd.cut_w rnd.cut_h 0 rnd.pick_copy hz
  have h2 := randsal_step_skip_of_copy_all_zero hs ws H W st p rnd hz
  exact ⟨by rw [h1], h2.1, h2.2, rfl⟩

/-- Witness for C4: a 2×2 batch-of-one state whose saliency map is already
all zero, cut sizes 1×1; the bbox call returns the sentinel, and images and
labels come back unchanged. -/
theorem claim4_degenerate_skip_witness :
    (∀ r < 2, ∀ c < 2, border_zero
      ((RandsalState.mk (fun _ _ _ _ => 7) (fun _ _ => 1) (fun _ _ _ => 0)).sal_maps
        (RandsalRand.mk 0 1 1 0 0).copy_idx) 2 2
      (RandsalRand.mk 0 1 1 0 0).cut_w (RandsalRand.mk 0 1 1 0 0).cut_h r c = 0) ∧
    (randsal_bbox
      ((RandsalState.mk (fun _ _ _ _ => 7) (fun _ _ => 1) (fun _ _ _ => 0)).sal_maps
        (RandsalRand.mk 0 1 1 0 0).copy_idx) 2 2
      (RandsalRand.mk 0 1 1 0 0).cut_w (RandsalRand.mk 0 1 1 0 0).cut_h 0
      (RandsalRand.mk 0 1 1 0 0).pick_copy).2 = rboxFail ∧
    (randsal_step 2 2 2 2
      (RandsalState.mk (fun _ _ _ _ => 7) (fun _ _ => 1) (fun _ _ _ => 0)) 0
      (RandsalRand.mk 0 1 1 0 0)).images =
      (RandsalState.mk (fun _ _ _ _ => 7) (fun _ _ => 1) (fun _ _ _ => 0)).images ∧
    (randsal_step 2 2 2 2
      (RandsalState.mk (fun _ _ _ _ => 7) (fun _ _ => 1) (fun _ _ _ => 0)) 0
      (RandsalRand.mk 0 1 1 0 0)).labels =
      (RandsalState.mk (fun _ _ _ _ => 7) (fun _ _ => 1) (fun _ _ _ => 0)).labels := by
  have hz : ∀ r < 2, ∀ c < 2, border_zero
      ((RandsalState.mk (fun _ _ _ _ => (7:ℚ)) (fun _ _ => 1) (fun _ _ _ => 0)).sal_maps
        (RandsalRand.mk 0 1 1 0 0).copy_idx) 2 2
      (RandsalRand.mk 0 1 1 0 0).cut_w (RandsalRand.mk 0 1 1 0 0).cut_h r c = 0 := by
    intro r _ c _
    simp [border_zero]
  have h := claim4_degenerate_skip 2 2 2 2
    (RandsalState.mk (fun _ _ _ _ => 7) (fun _ _ => 1) (fun _ _ _ => 0)) 0 0
    (RandsalRand.mk 0 1 1 0 0) (fun _ => RandsalRand.mk 0 1 1 0 0) hz
  exact ⟨hz, h.1, h.2.1, h.2.2.1⟩

/-- Claim C10: if either computed cut dimension is zero, the Python slice
`[-0:]` spans the whole axis, so the border zeroing blanks the *entire*
saliency map — whatever its contents — the selector returns the sentinel,
and the mixer iteration leaves that item's (indeed every item's) image and
label unchanged. -/
theorem claim10_zero_cut (hs ws H W : ℕ) (st : RandsalState) (p : ℕ)
    (rnd : RandsalRand) (sal : ℕ → ℕ → ℚ)
    (hcut : rnd.cut_w = 0 ∨ rnd.cut_h = 0) :
    (∀ r c, border_zero sal hs ws rnd.cut_w rnd.cut_h r c = 0) ∧
    (randsal_bbox (st.sal_maps rnd.copy_idx) hs ws rnd.cut_w rnd.cut_h 0
        rnd.pick_copy).2 = rboxFail ∧
    (randsal_step hs ws H W st p rnd).images = st.images ∧
    (randsal_step hs ws H W st p rnd).labels = st.labels := by
  have hall : ∀ (s : ℕ → ℕ → ℚ) (r c : ℕ),
      border_zero s hs ws rnd.cut_w rnd.cut_h r c = 0 := by
    intro s r c
    unfold border_zero
    rcases hcut with hcw | hch
    · rw [if_pos (Or.inr (Or.inl (by simp [lastZeroStart, hcw])))]
    · rw [if_pos (Or.inr (Or.inr (Or.inr (by simp [lastZeroStart, hch]))))]
  have hz : ∀ r < hs, ∀ c < ws,
      border_zero (st.sal_maps rnd.copy_idx) hs ws rnd.cut_w rnd.cut_h r c = 0 :=
    fun r _ c _ => hall _ r c
  have h1 := randsal_bbox_all_zero (st.sal_maps rnd.copy_idx) hs ws
    rnd.cut_w rnd.cut_h 0 rnd.pick_copy hz
  have h2 := randsal_step_skip_of_copy_all_zero hs ws H W st p rnd hz
  exact ⟨hall sal, by rw [h1], h2.1, h2.2⟩

/-- Witness for C10: 3×3 maps, `cut_w = 0` (`lam` close enough to 1 that
`int(3·sqrt(1−lam)) = 0`), a map full of 200s: everything is zeroed and the
item is skipped. -/
theorem claim10_zero_cut_witness :
    ((RandsalRand.mk 0 0 2 0 0).cut_w = 0 ∨ (RandsalRand.mk 0 0 2 0 0).cut_h = 0) ∧
    (∀ r c, border_zero (fun _ _ => 200) 3 3
      (RandsalRand.mk 0 0 2 0 0).cut_w (RandsalRand.mk 0 0 2 0 0).cut_h r c = 0) ∧
    (randsal_step 3 3 3 3
      (RandsalState.mk (fun _ _ _ _ => 5) (fun _ _ => 1) (fun _ _ _ => 200)) 0
      (RandsalRand.mk 0 0 2 0 0)).labels =
      (RandsalState.mk (fun _ _ _ _ => 5) (fun _ _ => 1) (fun _ _ _ => 200)).labels := by
  have h := claim10_zero_cut 3 3 3 3
    (RandsalState.mk (fun _ _ _ _ => 5) (fun _ _ => 1) (fun _ _ _ => 200)) 0
    (RandsalRand.mk 0 0 2 0 0) (fun _ _ => 200) (Or.inl rfl)
  exact ⟨Or.inl rfl, h.1, h.2.2.2⟩

/-- Claim C7 counterexample: the claim fails as stated.  The plain fixed
variants do not exclude the paste index: `SaliencyMixFixed` draws
`copy_indices = np.random.permutation(num_items)`, and a permutation may
have fixed points.  Running the embedding on a 2-item batch with the
identity permutation (a legal `np.random.permutation(2)` outcome) and
one-hot labels, item 0 is mixed with *itself*: its output label is its
unchanged one-hot (second component: value 1 at class 0), which differs from
the blend the claim mandates with the only other item `c = 1 ≠ p = 0`. -/
theorem claim7_counterexample :
    (SaliencyMixFixed_call (fun _ _ _ _ => 0)
      (fun j k => if j = k then (1 : ℚ) else 0)
      (fun _ _ _ => 1) 4 4 4 4 (fun p => p) (fun _ => (2, 2))).2 0 0 = 1 ∧
    ((fun j k => if j = k then (1 : ℚ) else 0) 0 0 *
        adjust_lambda (pick_most_salient_pixel (fun _ _ => (1 : ℚ)) 4 4 2 2) 4 4 +
      (fun j k => if j = k then (1 : ℚ) else 0) 1 0 *
        (1 - adjust_lambda (pick_most_salient_pixel (fun _ _ => (1 : ℚ)) 4 4 2 2) 4 4)) ≠
    (SaliencyMixFixed_call (fun _ _ _ _ => 0)
      (fun j k => if j = k then (1 : ℚ) else 0)
      (fun _ _ _ => 1) 4 4 4 4 (fun p => p) (fun _ => (2, 2))).2 0 0 := by
  constructor <;>
    simp [SaliencyMixFixed_call, mix_item, adjust_lambda,
      pick_most_salient_pixel, argmaxFlat_const, clip]

/-- Claim C7 amended: only the adaptive variant guarantees `c ≠ p`.
`ErrorMix` zeroes the paste index's probability before renormalizing, so any
copy index in the support of `partner_prob` differs from the paste index;
the plain variants (`np.random.permutation` / `np.random.randint`) offer no
such guarantee. -/
theorem claim7_amended (error_matrix : ℕ → ℕ → ℚ) (labels_idx : ℕ → ℕ)
    (p : ℕ) (eps : ℚ) (N j : ℕ)
    (hj : partner_prob error_matrix labels_idx p eps N j ≠ 0) :
    j ≠ p ∧ partner_prob error_matrix labels_idx p eps N p = 0 := by
  constructor
  · rintro rfl
    exact hj (by simp [partner_prob])
  · simp [partner_prob]

/-- Witness for the amended C7 at a concrete input: a uniform 2-class error
matrix, paste index 0, candidate 1. -/
theorem claim7_amended_witness :
    (partner_prob (fun _ _ => (1 : ℚ)/2) (fun j => j) 0 (1/1000) 2 1 ≠ 0) ∧
    (1 ≠ 0 ∧ partner_prob (fun _ _ => (1 : ℚ)/2) (fun j => j) 0 (1/1000) 2 0 = 0) := by
  have hj : partner_prob (fun _ _ => (1 : ℚ)/2) (fun j => j) 0 (1/1000) 2 1 ≠ 0 := by
    norm_num [partner_prob, Finset.sum_range_succ]
  exact ⟨hj, claim7_amended (fun _ _ => (1 : ℚ)/2) (fun j => j) 0 (1/1000) 2 1 hj⟩

/-- Both branches of `randsal_bbox` return the border-zeroed map as the new
value of the saliency-map argument (the zeroing happens in place *before*
the probability computation). -/
theorem randsal_bbox_map (sal : ℕ → ℕ → ℚ) (h w cw ch : ℕ) (val : ℤ)
    (pick : ℕ) :
    (randsal_bbox sal h w cw ch val pick).1 = border_zero sal h w cw ch := by
  simp only [randsal_bbox]
  split_ifs <;> rfl

set_option maxHeartbeats 8000000 in
/-- Claim C2 fails on `randsalMix`: evaluation at the failing input.
A 2-item batch with one-hot labels `e0, e1`, constant-100 3×3 saliency maps,
cut sizes 2×2; item 0 is mixed with copy partner 1, then item 1 with copy
partner 0.  The corrected lambda of item 1's iteration is `5/9` (copy box
area 4 over 9 pixels), so the claim mandates
`5/9·label_1 + 4/9·label_0 = (4/9, 5/9)` from the *original* labels; but
`temp_labels = labels` (augment.py line 404) merely aliases the mutated
tensor, so the code blends with item 0's *already mixed* label and produces
`20/81` in class 0 instead of `4/9`. -/
theorem claim2_label_blend_alias :
    adjust_lambda (rbox_to_bbox (copy_bbox 3 3
      (randsal_step 3 3 3 3
        (RandsalState.mk (fun _ _ _ _ => 0)
          (fun j k => if j = k then 1 else 0) (fun _ _ _ => 100)) 0
        (RandsalRand.mk 1 2 2 4 4))
      (RandsalRand.mk 0 2 2 4 4))) 3 3 = 5/9 ∧
    (randsalMix_call 3 3 3 3
      (RandsalState.mk (fun _ _ _ _ => 0)
        (fun j k => if j = k then 1 else 0) (fun _ _ _ => 100)) 2
      (fun p => if p = 0 then RandsalRand.mk 1 2 2 4 4
        else RandsalRand.mk 0 2 2 4 4)).labels 1 0 = 20/81 ∧
    ((fun j k => if j = k then (1 : ℚ) else 0) 1 0 * (5/9) +
      (fun j k => if j = k then (1 : ℚ) else 0) 0 0 * (1 - 5/9)) = 4/9 ∧
    (20/81 : ℚ) ≠ 4/9 := by
  refine ⟨?_, ?_, by norm_num, by norm_num⟩
  · norm_num [copy_bbox, rbox_to_bbox, adjust_lambda, randsal_step,
      randsal_bbox, randsal_prob, flat1d, border_zero, lastZeroStart,
      Finset.sum_range_succ]
  · norm_num [randsalMix_call, randsal_step, randsal_bbox, randsal_prob,
      flat1d, border_zero, lastZeroStart, List.range_succ,
      Finset.sum_range_succ]

/-- Claim C8 fails on `NoiseSaliencyMixFixed`: evaluation at the failing
input.  A 2-item batch with one-hot labels, constant saliency maps, partner
map `p ↦ 1 − p`: the mis-indented loop body means only the *last* paste
index (item 1) is mixed — item 0's label comes back as its untouched
one-hot, although a per-item mix with its designated partner 1 would have
blended it to `15/16` in class 0. -/
theorem claim8_noise_mix_only_last :
    (NoiseSaliencyMixFixed_call (fun _ _ _ _ => 0)
      (fun j k => if j = k then (1 : ℚ) else 0) (fun _ _ _ => 1)
      4 4 4 4 3 2 (fun p => 1 - p) (fun _ => (2, 2)) (fun _ _ _ => 0)).2 0 0 = 1 ∧
    (NoiseSaliencyMixFixed_call (fun _ _ _ _ => 0)
      (fun j k => if j = k then (1 : ℚ) else 0) (fun _ _ _ => 1)
      4 4 4 4 3 2 (fun p => 1 - p) (fun _ => (2, 2)) (fun _ _ _ => 0)).2 0 1 = 0 ∧
    ((fun j k => if j = k then (1 : ℚ) else 0) 0 0 *
        adjust_lambda (pick_most_salient_pixel (fun _ _ => (1 : ℚ)) 4 4 2 2) 4 4 +
      (fun j k => if j = k then (1 : ℚ) else 0) 1 0 *
        (1 - adjust_lambda (pick_most_salient_pixel (fun _ _ => (1 : ℚ)) 4 4 2 2) 4 4)) ≠ 1 ∧
    (NoiseSaliencyMixFixed_call (fun _ _ _ _ => 0)
      (fun j k => if j = k then (1 : ℚ) else 0) (fun _ _ _ => 1)
      4 4 4 4 3 2 (fun p => 1 - p) (fun _ => (2, 2)) (fun _ _ _ => 0)).2 1 0 = 1/16 := by
  refine ⟨?_, ?_, ?_, ?_⟩ <;>
    simp [NoiseSaliencyMixFixed_call, adjust_lambda, pick_most_salient_pixel,
      argmaxFlat_const, clip]

/-- Claim C9 counterexample: `randsalMix` mutates the caller's saliency
maps.  After a 1-item `randsalMix_call` on a constant-100 map, the stored
map's corner entry has been zeroed in place by the border zeroing of
`randsal_bbox`, while the caller's original map held 100 there. -/
theorem claim9_counterexample :
    (randsalMix_call 3 3 3 3
      (RandsalState.mk (fun _ _ _ _ => 0) (fun _ _ => 1) (fun _ _ _ => 100)) 1
      (fun _ => RandsalRand.mk 0 2 2 4 4)).sal_maps 0 0 0 = 0 ∧
    (RandsalState.mk (fun _ _ _ _ => (0 : ℚ)) (fun _ _ => 1)
      (fun _ _ _ => (100 : ℚ))).sal_maps 0 0 0 = 100 ∧
    (0 : ℚ) ≠ 100 := by
  refine ⟨?_, rfl, by norm_num⟩
  norm_num [randsalMix_call, randsal_step, randsal_bbox, randsal_prob,
    flat1d, border_zero, lastZeroStart, List.range_succ,
    Finset.sum_range_succ]

/-- Claim C9 amended: the saliency maps consumed by one `randsalMix`
iteration are *not* read-only — both the copy-role and the paste-role calls
border-zero the caller's map in place — while every map not involved in the
iteration is untouched. -/
theorem claim9_amended (hs ws H W : ℕ) (st : RandsalState) (p : ℕ)
    (rnd : RandsalRand) (hcp : rnd.copy_idx ≠ p) :
    (randsal_step hs ws H W st p rnd).sal_maps rnd.copy_idx =
      border_zero (st.sal_maps rnd.copy_idx) hs ws rnd.cut_w rnd.cut_h ∧
    (randsal_step hs ws H W st p rnd).sal_maps p =
      border_zero (st.sal_maps p) hs ws rnd.cut_w rnd.cut_h ∧
    ∀ j, j ≠ p → j ≠ rnd.copy_idx →
      (randsal_step hs ws H W st p rnd).sal_maps j = st.sal_maps j := by
  have hmap1 := randsal_bbox_map (st.sal_maps rnd.copy_idx) hs ws
    rnd.cut_w rnd.cut_h 0 rnd.pick_copy
  refine ⟨?_, ?_, ?_⟩
  · simp only [randsal_step]
    split_ifs <;> simp [hcp, hmap1]
  · have hpc : (p = rnd.copy_idx) = False := by
      simp [Ne.symm hcp]
    simp only [randsal_step, hpc, if_false]
    split_ifs <;> simp [randsal_bbox_map]
  · intro j hjp hjc
    simp only [randsal_step]
    split_ifs <;> simp [hjp, hjc]

/-- Witness for the amended C9: copy index 1, paste index 0 on a concrete
3×3 state. -/
theorem claim9_amended_witness :
    ((RandsalRand.mk 1 2 2 4 4).copy_idx ≠ 0) ∧
    (randsal_step 3 3 3 3
      (RandsalState.mk (fun _ _ _ _ => 0) (fun _ _ => 1) (fun _ _ _ => 100)) 0
      (RandsalRand.mk 1 2 2 4 4)).sal_maps (RandsalRand.mk 1 2 2 4 4).copy_idx =
      border_zero ((RandsalState.mk (fun _ _ _ _ => (0 : ℚ)) (fun _ _ => 1)
          (fun _ _ _ => 100)).sal_maps (RandsalRand.mk 1 2 2 4 4).copy_idx)
        3 3 (RandsalRand.mk 1 2 2 4 4).cut_w (RandsalRand.mk 1 2 2 4 4).cut_h := by
  have h := claim9_amended 3 3 3 3
    (RandsalState.mk (fun _ _ _ _ => 0) (fun _ _ => 1) (fun _ _ _ => 100)) 0
    (RandsalRand.mk 1 2 2 4 4) (by norm_num)
  exact ⟨by norm_num, h.1⟩

end RandSaliencyMix
